import Mathlib

/-!
Verification of the Sensa-AI mindmap generation pipeline
(`sensa_mindmap_generator.py`, AWS Lambda worker).

The development shallowly embeds the pure core of the pipeline:
 * the NetworkX `DiGraph` operations the code uses (`add_node`, `add_edge`,
   `in_degree`, `successors`, node-attribute dictionaries),
 * the graph build from the AI-generated node/edge descriptor lists
   (`process_mindmap_generation`, lines 352-376),
 * the breadth-first hierarchy computation (lines 378-407),
 * the layout selection and final result assembly (lines 421-507),
 * the idempotency configuration and guard around the handler
   (lines 37-55, 516-518), and
 * the SQS batch loop `handle_sqs_event` (lines 635-732) together with the
   status recorder `update_job_status` (lines 194-244).

External effects (the AI call, the real DynamoDB/Supabase stores, the
pygraphviz/NetworkX layout algorithms, the logger) are modelled as explicit
parameters; everything else follows the Python source line by line.
-/

namespace Sensa

/-! ## Python dictionaries of node/edge attributes -/

/-- An attribute value as stored in a NetworkX node/edge attribute dict:
a string, a natural number (the `level`), Python `None` (the initial
`parent_id`), or a numeric coordinate (modelled as a rational). -/
inductive AttrVal where
  | str (v : String)
  | nat (v : Nat)
  | null
  | num (v : Rat)
  deriving DecidableEq, Repr

/-- A Python dict, as an insertion-ordered association list. -/
abbrev AttrDict := List (String × AttrVal)

/-- `d[k] = v`: overwrite an existing key in place, else append. -/
def dictSet (d : AttrDict) (k : String) (v : AttrVal) : AttrDict :=
  match d with
  | [] => [(k, v)]
  | (k0, v0) :: rest =>
      if k0 = k then (k, v) :: rest else (k0, v0) :: dictSet rest k v

/-- `d.get(k)`: first binding of `k`, if any. -/
def dictGet (d : AttrDict) (k : String) : Option AttrVal :=
  match d with
  | [] => none
  | (k0, v0) :: rest => if k0 = k then some v0 else dictGet rest k

/-- `d.update(u)`: Python dict update, key by key. -/
def dictUpdate (d : AttrDict) (u : AttrDict) : AttrDict :=
  u.foldl (fun acc kv => dictSet acc kv.1 kv.2) d

theorem dictGet_dictSet_self (d : AttrDict) (k : String) (v : AttrVal) :
    dictGet (dictSet d k v) k = some v := by
  induction d with
  | nil => simp [dictSet, dictGet]
  | cons p rest ih =>
      by_cases h : p.1 = k
      · simp [dictSet, dictGet, h]
      · simp [dictSet, dictGet, h, ih]

theorem dictGet_dictSet_ne (d : AttrDict) (k k' : String) (v : AttrVal)
    (h : k ≠ k') : dictGet (dictSet d k v) k' = dictGet d k' := by
  induction d with
  | nil => simp [dictSet, dictGet, h]
  | cons p rest ih =>
      by_cases hp : p.1 = k
      · subst hp
        simp [dictSet, dictGet, h]
      · simp [dictSet, dictGet, hp, ih]

/-! ## The NetworkX directed graph, as used by the code -/

/-- A NetworkX `DiGraph`: insertion-ordered node list with attribute dicts,
and insertion-ordered edge list with attribute dicts.  `add_edge` keeps at
most one entry per `(source, target)` pair, as NetworkX does. -/
structure DiGraph where
  nodes : List (String × AttrDict)
  edges : List (String × String × AttrDict)
  deriving DecidableEq, Repr

def emptyGraph : DiGraph := ⟨[], []⟩

def DiGraph.nodeIds (G : DiGraph) : List String := G.nodes.map (·.1)

def DiGraph.edgePairs (G : DiGraph) : List (String × String) :=
  G.edges.map (fun e => (e.1, e.2.1))

/-- `G.add_node(i, **attrs)`: update attributes if the node exists
(`dict.update`), else append a fresh node. -/
def DiGraph.add_node (G : DiGraph) (i : String) (attrs : AttrDict) : DiGraph :=
  if i ∈ G.nodeIds then
    { G with nodes := G.nodes.map fun p =>
        if p.1 = i then (p.1, dictUpdate p.2 attrs) else p }
  else
    { G with nodes := G.nodes ++ [(i, attrs)] }

/-- NetworkX `add_edge` first silently adds any missing endpoint as a node
with an EMPTY attribute dict. -/
def DiGraph.ensureNode (G : DiGraph) (i : String) : DiGraph :=
  if i ∈ G.nodeIds then G else { G with nodes := G.nodes ++ [(i, [])] }

/-- `G.add_edge(u, v, **attrs)`: silently add missing endpoints as nodes with
empty attribute dicts, then insert the edge, or update its attributes if the
pair is already present. -/
def DiGraph.add_edge (G : DiGraph) (u v : String) (attrs : AttrDict) : DiGraph :=
  let G2 := (G.ensureNode u).ensureNode v
  if (u, v) ∈ G2.edgePairs then
    { G2 with edges := G2.edges.map fun e =>
        if e.1 = u ∧ e.2.1 = v then (e.1, e.2.1, dictUpdate e.2.2 attrs) else e }
  else
    { G2 with edges := G2.edges ++ [(u, v, attrs)] }

/-- `G.in_degree(n)`: number of distinct in-edges of `n`. -/
def DiGraph.in_degree (G : DiGraph) (n : String) : Nat :=
  (G.edges.filter fun e => e.2.1 = n).length

/-- `G.successors(u)`: targets of the out-edges of `u`, in edge insertion
order (NetworkX adjacency iteration order). -/
def DiGraph.successors (G : DiGraph) (u : String) : List String :=
  (G.edges.filter fun e => e.1 = u).map (fun e => e.2.1)

/-- `G.nodes[i][k]`, read through `dictGet`. -/
def getNodeAttr (G : DiGraph) (i k : String) : Option AttrVal :=
  match G.nodes.find? (fun p => p.1 = i) with
  | some p => dictGet p.2 k
  | none => none

/-- `G.nodes[i][k] = v`. -/
def setNodeAttr (G : DiGraph) (i k : String) (v : AttrVal) : DiGraph :=
  { G with nodes := G.nodes.map fun p =>
      if p.1 = i then (p.1, dictSet p.2 k v) else p }

/-! ## Graph build from the generated node/edge descriptors
(`process_mindmap_generation`, lines 352-376) -/

/-- A node descriptor as parsed from the AI JSON: each field may be absent
(a missing dict key). -/
structure NodeDesc where
  id : Option String
  label : Option String
  description : Option String
  deriving DecidableEq, Repr

/-- An edge descriptor as parsed from the AI JSON. -/
structure EdgeDesc where
  source : Option String
  target : Option String
  label : Option String
  deriving DecidableEq, Repr

/-- The Python exceptions the embedded build path can raise:
`node['description']` on a dict missing the key raises `KeyError`.
(No exception class named `SchemaError` exists anywhere in the repository.) -/
inductive PyError where
  | keyError (key : String)
  deriving DecidableEq, Repr

/-- The attribute dict built for a declared node (lines 358-365):
`id`, `label`, `description`, `level = 0`, `parent_id = None`. -/
def initNodeAttrs (i l d : String) : AttrDict :=
  [("id", .str i), ("label", .str l), ("description", .str d),
   ("level", .nat 0), ("parent_id", .null)]

/-- The attribute dict built for an edge (lines 370-375). -/
def initEdgeAttrs (s t : String) (lab : Option String) : AttrDict :=
  [("source", .str s), ("target", .str t),
   ("label", .str (lab.getD "")),
   ("relationship", .str (lab.getD "connects to"))]

/-- The node loop (lines 356-366): `node['id']` / `node['label']` /
`node['description']` raise `KeyError` on a missing field; otherwise the
node is added with the initial attributes. -/
def addNodes (G : DiGraph) : List NodeDesc → Except PyError DiGraph
  | [] => .ok G
  | nd :: rest =>
      match nd.id with
      | none => .error (.keyError "id")
      | some i =>
          match nd.label with
          | none => .error (.keyError "label")
          | some l =>
              match nd.description with
              | none => .error (.keyError "description")
              | some d => addNodes (G.add_node i (initNodeAttrs i l d)) rest

/-- The edge loop (lines 369-376): `edge['source']` / `edge['target']` raise
`KeyError` on a missing field, `label` defaults; `G.add_edge` is called
unconditionally — endpoints are never checked against the declared nodes. -/
def addEdges (G : DiGraph) : List EdgeDesc → Except PyError DiGraph
  | [] => .ok G
  | ed :: rest =>
      match ed.source with
      | none => .error (.keyError "source")
      | some s =>
          match ed.target with
          | none => .error (.keyError "target")
          | some t => addEdges (G.add_edge s t (initEdgeAttrs s t ed.label)) rest

/-- Lines 352-376: build the NetworkX graph from the parsed descriptors. -/
def buildGraph (nodeDescs : List NodeDesc) (edgeDescs : List EdgeDesc) :
    Except PyError DiGraph :=
  match addNodes emptyGraph nodeDescs with
  | .error e => .error e
  | .ok G => addEdges G edgeDescs

/-! ## Hierarchy computation (lines 378-407) -/

/-- Line 381: `root_nodes = [node for node in G.nodes() if G.in_degree(node) == 0]`. -/
def rootNodes (G : DiGraph) : List String :=
  G.nodeIds.filter fun n => G.in_degree n = 0

/-- The BFS state of lines 386-401: the graph being annotated, the pending
`deque` of `(node_id, level)` pairs, and the `visited` set. -/
structure BfsState where
  G : DiGraph
  queue : List (String × Nat)
  visited : List String
  deriving DecidableEq, Repr

/-- Lines 397-401: for each successor not yet visited, set its `parent_id`
to the current node and append it to the queue. -/
def discoverChildren (G : DiGraph) (visited : List String) (parent : String)
    (level : Nat) (queue : List (String × Nat)) :
    List String → DiGraph × List (String × Nat)
  | [] => (G, queue)
  | c :: rest =>
      if c ∈ visited then discoverChildren G visited parent level queue rest
      else discoverChildren (setNodeAttr G c "parent_id" (.str parent))
        visited parent level (queue ++ [(c, level + 1)]) rest

/-- One iteration of the `while queue:` loop (lines 389-401); `none` when the
queue is empty. -/
def bfsStep (s : BfsState) : Option BfsState :=
  match s.queue with
  | [] => none
  | (nodeId, level) :: rest =>
      if nodeId ∈ s.visited then some { s with queue := rest }
      else
        let G1 := setNodeAttr s.G nodeId "level" (.nat level)
        let r := discoverChildren G1 (s.visited ++ [nodeId]) nodeId level rest
          (G1.successors nodeId)
        some { G := r.1, queue := r.2, visited := s.visited ++ [nodeId] }

/-- Run the loop to completion, with fuel for termination. -/
def bfsRun : Nat → BfsState → BfsState
  | 0, s => s
  | fuel + 1, s =>
      match bfsStep s with
      | none => s
      | some s1 => bfsRun fuel s1

/-- Fuel that bounds the total number of queue insertions: each dequeue of an
unvisited node (at most one per node) appends at most one entry per edge. -/
def hierarchyFuel (G : DiGraph) : Nat :=
  (G.nodes.length + 1) * (G.edges.length + 1) + G.nodes.length + 1

/-- Lines 379-401: if there are root candidates, BFS from all of them
(seeded at level 0, in node insertion order); otherwise the assignment is
skipped entirely and the graph is returned unchanged. -/
def computeHierarchy (G : DiGraph) : DiGraph :=
  if rootNodes G = [] then G
  else (bfsRun (hierarchyFuel G)
    { G := G, queue := (rootNodes G).map (fun r => (r, 0)), visited := [] }).G

/-! ## Layout and result assembly (lines 421-507) -/

/-- The layout environment: whether `import pygraphviz` succeeds, the dot
positions (external pygraphviz; `none` models a node whose `pos` attribute
is missing or unparsable), and the spring-layout positions (external
`nx.spring_layout`, normalized range). -/
structure LayoutEnv where
  pygraphvizAvailable : Bool
  dotPos : String → Option (Rat × Rat)
  springPos : String → Option (Rat × Rat)

/-- Lines 431-453 (primary path): copy each node's attributes, then set the
dot coordinates, or `(0.0, 0.0)` when the position lookup fails. -/
def positionNodesDot (G : DiGraph) (dotPos : String → Option (Rat × Rat)) :
    List AttrDict :=
  G.nodes.map fun p =>
    match dotPos p.1 with
    | some xy => dictSet (dictSet p.2 "x" (.num xy.1)) "y" (.num xy.2)
    | none => dictSet (dictSet p.2 "x" (.num 0)) "y" (.num 0)

/-- Lines 472-486 (fallback path): spring positions are scaled by 200;
a node absent from the position map gets `(0.0, 0.0)`. -/
def positionNodesSpring (G : DiGraph) (springPos : String → Option (Rat × Rat)) :
    List AttrDict :=
  G.nodes.map fun p =>
    match springPos p.1 with
    | some xy => dictSet (dictSet p.2 "x" (.num (xy.1 * 200))) "y" (.num (xy.2 * 200))
    | none => dictSet (dictSet p.2 "x" (.num 0)) "y" (.num 0)

/-- The `metadata` dict of lines 498-504. -/
structure Metadata where
  subject : String
  generated_at : String
  node_count : Nat
  edge_count : Nat
  layout_engine : String
  deriving DecidableEq, Repr

/-- The `final_data` dict of lines 494-505. -/
structure FinalData where
  subject : String
  nodes : List AttrDict
  edges : List EdgeDesc
  metadata : Metadata
  deriving DecidableEq, Repr

/-- Lines 421-507: choose the positioned node list by pygraphviz
availability, then assemble `final_data`.  The `layout_engine` metadata
field is the literal `'dot'` on line 503, written once for both branches. -/
def layoutAndAssemble (env : LayoutEnv) (subject generatedAt : String)
    (G : DiGraph) (edgeDescs : List EdgeDesc) : FinalData :=
  let positioned :=
    if env.pygraphvizAvailable then positionNodesDot G env.dotPos
    else positionNodesSpring G env.springPos
  { subject := subject
    nodes := positioned
    edges := edgeDescs
    metadata :=
      { subject := subject
        generated_at := generatedAt
        node_count := positioned.length
        edge_count := edgeDescs.length
        layout_engine := "dot" } }

/-- The pure tail of `process_mindmap_generation` (lines 352-507), from the
parsed AI response onward: build the graph, compute the hierarchy, lay out
and assemble.  A raised `KeyError` aborts the whole job: no partial graph or
result is ever returned. -/
def processMindmap (env : LayoutEnv) (subject generatedAt : String)
    (nodeDescs : List NodeDesc) (edgeDescs : List EdgeDesc) :
    Except PyError FinalData :=
  match buildGraph nodeDescs edgeDescs with
  | .error e => .error e
  | .ok G =>
      .ok (layoutAndAssemble env subject generatedAt (computeHierarchy G) edgeDescs)

/-! ## Lemmas about the graph operations -/

theorem map_fst_update (l : List (String × AttrDict)) (i : String)
    (f : String → AttrDict → AttrDict) :
    (l.map fun p => if p.1 = i then (p.1, f p.1 p.2) else p).map (fun p => p.1)
      = l.map (fun p => p.1) := by
  induction l with
  | nil => rfl
  | cons p rest ih => by_cases h : p.1 = i <;> simp [h, ih]

theorem nodeIds_add_node (G : DiGraph) (i : String) (a : AttrDict) :
    (G.add_node i a).nodeIds =
      if i ∈ G.nodeIds then G.nodeIds else G.nodeIds ++ [i] := by
  unfold DiGraph.add_node
  by_cases h : i ∈ G.nodeIds
  · rw [if_pos h, if_pos h]
    exact map_fst_update G.nodes i (fun _ d => dictUpdate d a)
  · rw [if_neg h, if_neg h]
    show (G.nodes ++ [(i, a)]).map (fun p => p.1) = G.nodes.map (fun p => p.1) ++ [i]
    simp

theorem mem_nodeIds_add_node {G : DiGraph} {i j : String} {a : AttrDict} :
    j ∈ (G.add_node i a).nodeIds ↔ j ∈ G.nodeIds ∨ j = i := by
  rw [nodeIds_add_node]
  by_cases h : i ∈ G.nodeIds
  · rw [if_pos h]
    exact ⟨Or.inl, fun hj => hj.elim id (fun e => e ▸ h)⟩
  · rw [if_neg h]
    simp

theorem edges_add_node (G : DiGraph) (i : String) (a : AttrDict) :
    (G.add_node i a).edges = G.edges := by
  unfold DiGraph.add_node
  by_cases h : i ∈ G.nodeIds
  · rw [if_pos h]
  · rw [if_neg h]

theorem nodes_add_node_mem {G : DiGraph} {i : String} {a : AttrDict} {p : String × AttrDict}
    (hp : p ∈ (G.add_node i a).nodes) :
    p ∈ G.nodes ∨ (∃ q ∈ G.nodes, p = (q.1, dictUpdate q.2 a)) ∨ p = (i, a) := by
  unfold DiGraph.add_node at hp
  by_cases h : i ∈ G.nodeIds
  · rw [if_pos h] at hp
    simp only [List.mem_map] at hp
    obtain ⟨q, hq, hqe⟩ := hp
    by_cases hqi : q.1 = i
    · rw [if_pos hqi] at hqe
      exact Or.inr (Or.inl ⟨q, hq, hqe.symm⟩)
    · rw [if_neg hqi] at hqe
      exact Or.inl (hqe ▸ hq)
  · rw [if_neg h] at hp
    simp only [List.mem_append, List.mem_singleton] at hp
    exact hp.elim Or.inl (fun e => Or.inr (Or.inr e))

theorem nodeIds_ensureNode (G : DiGraph) (i : String) :
    (G.ensureNode i).nodeIds =
      if i ∈ G.nodeIds then G.nodeIds else G.nodeIds ++ [i] := by
  unfold DiGraph.ensureNode
  by_cases h : i ∈ G.nodeIds
  · rw [if_pos h, if_pos h]
  · rw [if_neg h, if_neg h]
    show (G.nodes ++ [(i, ([] : AttrDict))]).map (fun p => p.1) = G.nodes.map (fun p => p.1) ++ [i]
    simp

theorem mem_nodeIds_ensureNode {G : DiGraph} {i j : String} :
    j ∈ (G.ensureNode i).nodeIds ↔ j ∈ G.nodeIds ∨ j = i := by
  rw [nodeIds_ensureNode]
  by_cases h : i ∈ G.nodeIds
  · rw [if_pos h]
    exact ⟨Or.inl, fun hj => hj.elim id (fun e => e ▸ h)⟩
  · rw [if_neg h]
    simp

theorem edges_ensureNode (G : DiGraph) (i : String) :
    (G.ensureNode i).edges = G.edges := by
  unfold DiGraph.ensureNode
  by_cases h : i ∈ G.nodeIds
  · rw [if_pos h]
  · rw [if_neg h]

theorem edgePairs_ensureNode (G : DiGraph) (i : String) :
    (G.ensureNode i).edgePairs = G.edgePairs := by
  simp [DiGraph.edgePairs, edges_ensureNode]

theorem nodes_ensureNode_mem {G : DiGraph} {i : String} {p : String × AttrDict}
    (hp : p ∈ (G.ensureNode i).nodes) : p ∈ G.nodes ∨ p.2 = [] := by
  by_cases h : i ∈ G.nodeIds
  · simp only [DiGraph.ensureNode, if_pos h] at hp
    exact Or.inl hp
  · simp only [DiGraph.ensureNode, if_neg h, List.mem_append,
      List.mem_singleton] at hp
    exact hp.elim Or.inl (fun e => Or.inr (by simp [e]))

theorem map_pair_update (l : List (String × String × AttrDict)) (u v : String)
    (f : AttrDict → AttrDict) :
    ((l.map fun e => if e.1 = u ∧ e.2.1 = v then (e.1, e.2.1, f e.2.2) else e).map
      fun e => (e.1, e.2.1)) = l.map fun e => (e.1, e.2.1) := by
  induction l with
  | nil => rfl
  | cons e rest ih => by_cases h : e.1 = u ∧ e.2.1 = v <;> simp [h, ih]

theorem edgePairs_add_edge (G : DiGraph) (u v : String) (a : AttrDict) :
    (G.add_edge u v a).edgePairs =
      if (u, v) ∈ ((G.ensureNode u).ensureNode v).edgePairs then G.edgePairs
      else G.edgePairs ++ [(u, v)] := by
  have h2 : ((G.ensureNode u).ensureNode v).edgePairs = G.edgePairs := by
    rw [edgePairs_ensureNode, edgePairs_ensureNode]
  unfold DiGraph.add_edge
  by_cases h : (u, v) ∈ ((G.ensureNode u).ensureNode v).edgePairs
  · rw [if_pos h, if_pos h, ← h2]
    exact map_pair_update ((G.ensureNode u).ensureNode v).edges u v (fun d => dictUpdate d a)
  · rw [if_neg h, if_neg h, ← h2]
    show (((G.ensureNode u).ensureNode v).edges ++ [(u, v, a)]).map (fun e => (e.1, e.2.1))
      = ((G.ensureNode u).ensureNode v).edges.map (fun e => (e.1, e.2.1)) ++ [(u, v)]
    simp

theorem mem_edgePairs_add_edge {G : DiGraph} {u v : String} {a : AttrDict} {pq} :
    pq ∈ (G.add_edge u v a).edgePairs ↔ pq ∈ G.edgePairs ∨ pq = (u, v) := by
  rw [edgePairs_add_edge]
  have h2 : ((G.ensureNode u).ensureNode v).edgePairs = G.edgePairs := by
    rw [edgePairs_ensureNode, edgePairs_ensureNode]
  by_cases h : (u, v) ∈ ((G.ensureNode u).ensureNode v).edgePairs
  · rw [if_pos h]
    exact ⟨Or.inl, fun hj => hj.elim id (fun e => e ▸ (h2 ▸ h))⟩
  · rw [if_neg h]
    simp

theorem nodes_add_edge (G : DiGraph) (u v : String) (a : AttrDict) :
    (G.add_edge u v a).nodes = ((G.ensureNode u).ensureNode v).nodes := by
  unfold DiGraph.add_edge
  by_cases h : (u, v) ∈ ((G.ensureNode u).ensureNode v).edgePairs
  · rw [if_pos h]
  · rw [if_neg h]

theorem mem_nodeIds_add_edge {G : DiGraph} {u v j : String} {a : AttrDict} :
    j ∈ (G.add_edge u v a).nodeIds ↔ j ∈ G.nodeIds ∨ j = u ∨ j = v := by
  have : (G.add_edge u v a).nodeIds = ((G.ensureNode u).ensureNode v).nodeIds := by
    simp [DiGraph.nodeIds, nodes_add_edge]
  rw [this]
  rw [mem_nodeIds_ensureNode, mem_nodeIds_ensureNode]
  tauto

theorem nodes_add_edge_mem {G : DiGraph} {u v : String} {a : AttrDict} {p : String × AttrDict}
    (hp : p ∈ (G.add_edge u v a).nodes) : p ∈ G.nodes ∨ p.2 = [] := by
  rw [nodes_add_edge] at hp
  rcases nodes_ensureNode_mem hp with h1 | h1
  · exact nodes_ensureNode_mem h1
  · exact Or.inr h1

theorem nodup_add_node {G : DiGraph} {i : String} {a : AttrDict}
    (h : G.nodeIds.Nodup) : (G.add_node i a).nodeIds.Nodup := by
  rw [nodeIds_add_node]
  by_cases hm : i ∈ G.nodeIds
  · rw [if_pos hm]; exact h
  · rw [if_neg hm, List.nodup_append]
    refine ⟨h, List.nodup_singleton i, ?_⟩
    intro x hx hx'
    rw [List.mem_singleton] at hx'
    exact hm (hx' ▸ hx)

theorem nodup_ensureNode {G : DiGraph} {i : String}
    (h : G.nodeIds.Nodup) : (G.ensureNode i).nodeIds.Nodup := by
  rw [nodeIds_ensureNode]
  by_cases hm : i ∈ G.nodeIds
  · rw [if_pos hm]; exact h
  · rw [if_neg hm, List.nodup_append]
    refine ⟨h, List.nodup_singleton i, ?_⟩
    intro x hx hx'
    rw [List.mem_singleton] at hx'
    exact hm (hx' ▸ hx)

theorem nodup_add_edge {G : DiGraph} {u v : String} {a : AttrDict}
    (h : G.nodeIds.Nodup) : (G.add_edge u v a).nodeIds.Nodup := by
  have : (G.add_edge u v a).nodeIds = ((G.ensureNode u).ensureNode v).nodeIds := by
    simp [DiGraph.nodeIds, nodes_add_edge]
  rw [this]
  exact nodup_ensureNode (nodup_ensureNode h)

/-! ## Lemmas about the build loops -/

theorem addNodes_ok_mem {nds : List NodeDesc} {G G' : DiGraph}
    (h : addNodes G nds = .ok G') (j : String) :
    j ∈ G'.nodeIds ↔ j ∈ G.nodeIds ∨ ∃ nd ∈ nds, nd.id = some j := by
  induction nds generalizing G with
  | nil =>
      simp only [addNodes] at h
      cases h
      simp
  | cons nd rest ih =>
      rcases hid : nd.id with _ | i
      · rw [addNodes, hid] at h; cases h
      rcases hlb : nd.label with _ | l
      · rw [addNodes, hid, hlb] at h; cases h
      rcases hde : nd.description with _ | de
      · rw [addNodes, hid, hlb, hde] at h; cases h
      rw [addNodes, hid, hlb, hde] at h
      rw [ih h, mem_nodeIds_add_node]
      simp only [List.exists_mem_cons_iff, hid, Option.some_inj]
      constructor
      · rintro ((hj | rfl) | hj)
        · exact Or.inl hj
        · exact Or.inr (Or.inl rfl)
        · exact Or.inr (Or.inr hj)
      · rintro (hj | (rfl | hj))
        · exact Or.inl (Or.inl hj)
        · exact Or.inl (Or.inr rfl)
        · exact Or.inr hj

theorem addNodes_ok_edges {nds : List NodeDesc} {G G' : DiGraph}
    (h : addNodes G nds = .ok G') : G'.edges = G.edges := by
  induction nds generalizing G with
  | nil =>
      simp only [addNodes] at h
      cases h
      rfl
  | cons nd rest ih =>
      rcases hid : nd.id with _ | i
      · rw [addNodes, hid] at h; cases h
      rcases hlb : nd.label with _ | l
      · rw [addNodes, hid, hlb] at h; cases h
      rcases hde : nd.description with _ | de
      · rw [addNodes, hid, hlb, hde] at h; cases h
      rw [addNodes, hid, hlb, hde] at h
      rw [ih h, edges_add_node]

theorem addEdges_ok_mem {eds : List EdgeDesc} {G G' : DiGraph}
    (h : addEdges G eds = .ok G') (j : String) :
    j ∈ G'.nodeIds ↔
      j ∈ G.nodeIds ∨ ∃ ed ∈ eds, ed.source = some j ∨ ed.target = some j := by
  induction eds generalizing G with
  | nil =>
      simp only [addEdges] at h
      cases h
      simp
  | cons ed rest ih =>
      rcases hs : ed.source with _ | s
      · rw [addEdges, hs] at h; cases h
      rcases ht : ed.target with _ | t
      · rw [addEdges, hs, ht] at h; cases h
      rw [addEdges, hs, ht] at h
      rw [ih h, mem_nodeIds_add_edge]
      simp only [List.exists_mem_cons_iff, hs, ht, Option.some_inj]
      constructor
      · rintro ((hj | rfl | rfl) | hj)
        · exact Or.inl hj
        · exact Or.inr (Or.inl (Or.inl rfl))
        · exact Or.inr (Or.inl (Or.inr rfl))
        · exact Or.inr (Or.inr hj)
      · rintro (hj | ((rfl | rfl) | hj))
        · exact Or.inl (Or.inl hj)
        · exact Or.inl (Or.inr (Or.inl rfl))
        · exact Or.inl (Or.inr (Or.inr rfl))
        · exact Or.inr hj

theorem addEdges_ok_edgePairs {eds : List EdgeDesc} {G G' : DiGraph}
    (h : addEdges G eds = .ok G') (pq : String × String) :
    pq ∈ G'.edgePairs ↔
      pq ∈ G.edgePairs ∨
        ∃ ed ∈ eds, ed.source = some pq.1 ∧ ed.target = some pq.2 := by
  induction eds generalizing G with
  | nil =>
      simp only [addEdges] at h
      cases h
      simp
  | cons ed rest ih =>
      rcases hs : ed.source with _ | s
      · rw [addEdges, hs] at h; cases h
      rcases ht : ed.target with _ | t
      · rw [addEdges, hs, ht] at h; cases h
      rw [addEdges, hs, ht] at h
      rw [ih h, mem_edgePairs_add_edge]
      simp only [List.exists_mem_cons_iff, hs, ht, Option.some_inj]
      constructor
      · rintro ((hj | rfl) | hj)
        · exact Or.inl hj
        · exact Or.inr (Or.inl ⟨rfl, rfl⟩)
        · exact Or.inr (Or.inr hj)
      · rintro (hj | (⟨h1, h2⟩ | hj))
        · exact Or.inl (Or.inl hj)
        · exact Or.inl (Or.inr (Prod.ext h1.symm h2.symm))
        · exact Or.inr hj

theorem addNodes_total {nds : List NodeDesc} (G : DiGraph)
    (h : ∀ nd ∈ nds, nd.id ≠ none ∧ nd.label ≠ none ∧ nd.description ≠ none) :
    ∃ G', addNodes G nds = .ok G' := by
  induction nds generalizing G with
  | nil => exact ⟨G, rfl⟩
  | cons nd rest ih =>
      obtain ⟨h1, h2, h3⟩ := h nd (List.mem_cons_self nd rest)
      rcases hid : nd.id with _ | i
      · exact absurd hid h1
      rcases hlb : nd.label with _ | l
      · exact absurd hlb h2
      rcases hde : nd.description with _ | de
      · exact absurd hde h3
      obtain ⟨G', hG'⟩ := ih (G.add_node i (initNodeAttrs i l de))
        (fun nd' hnd' => h nd' (List.mem_cons_of_mem nd hnd'))
      exact ⟨G', by rw [addNodes, hid, hlb, hde]; exact hG'⟩

theorem addEdges_total {eds : List EdgeDesc} (G : DiGraph)
    (h : ∀ ed ∈ eds, ed.source ≠ none ∧ ed.target ≠ none) :
    ∃ G', addEdges G eds = .ok G' := by
  induction eds generalizing G with
  | nil => exact ⟨G, rfl⟩
  | cons ed rest ih =>
      obtain ⟨h1, h2⟩ := h ed (List.mem_cons_self ed rest)
      rcases hs : ed.source with _ | s
      · exact absurd hs h1
      rcases ht : ed.target with _ | t
      · exact absurd ht h2
      obtain ⟨G', hG'⟩ := ih (G.add_edge s t (initEdgeAttrs s t ed.label))
        (fun ed' hed' => h ed' (List.mem_cons_of_mem ed hed'))
      exact ⟨G', by rw [addEdges, hs, ht]; exact hG'⟩

theorem addNodes_missing_field {nds : List NodeDesc} (G : DiGraph)
    (h : ∃ nd ∈ nds, nd.id = none ∨ nd.label = none ∨ nd.description = none) :
    ∃ k ∈ (["id", "label", "description"] : List String),
      addNodes G nds = .error (.keyError k) := by
  induction nds generalizing G with
  | nil => simp at h
  | cons nd rest ih =>
      rcases hid : nd.id with _ | i
      · exact ⟨"id", by simp, by rw [addNodes, hid]⟩
      rcases hlb : nd.label with _ | l
      · exact ⟨"label", by simp, by rw [addNodes, hid, hlb]⟩
      rcases hde : nd.description with _ | de
      · exact ⟨"description", by simp, by rw [addNodes, hid, hlb, hde]⟩
      have hrest : ∃ nd' ∈ rest,
          nd'.id = none ∨ nd'.label = none ∨ nd'.description = none := by
        rcases h with ⟨nd', hmem, hcase⟩
        rcases List.mem_cons.mp hmem with rfl | hmem'
        · rcases hcase with hc | hc | hc
          · rw [hid] at hc; cases hc
          · rw [hlb] at hc; cases hc
          · rw [hde] at hc; cases hc
        · exact ⟨nd', hmem', hcase⟩
      obtain ⟨k, hk, hrun⟩ := ih (G.add_node i (initNodeAttrs i l de)) hrest
      exact ⟨k, hk, by rw [addNodes, hid, hlb, hde]; exact hrun⟩

theorem addNodes_nodup {nds : List NodeDesc} {G G' : DiGraph}
    (h : addNodes G nds = .ok G') (hn : G.nodeIds.Nodup) : G'.nodeIds.Nodup := by
  induction nds generalizing G with
  | nil =>
      simp only [addNodes] at h
      cases h
      exact hn
  | cons nd rest ih =>
      rcases hid : nd.id with _ | i
      · rw [addNodes, hid] at h; cases h
      rcases hlb : nd.label with _ | l
      · rw [addNodes, hid, hlb] at h; cases h
      rcases hde : nd.description with _ | de
      · rw [addNodes, hid, hlb, hde] at h; cases h
      rw [addNodes, hid, hlb, hde] at h
      exact ih h (nodup_add_node hn)

theorem addEdges_nodup {eds : List EdgeDesc} {G G' : DiGraph}
    (h : addEdges G eds = .ok G') (hn : G.nodeIds.Nodup) : G'.nodeIds.Nodup := by
  induction eds generalizing G with
  | nil =>
      simp only [addEdges] at h
      cases h
      exact hn
  | cons ed rest ih =>
      rcases hs : ed.source with _ | s
      · rw [addEdges, hs] at h; cases h
      rcases ht : ed.target with _ | t
      · rw [addEdges, hs, ht] at h; cases h
      rw [addEdges, hs, ht] at h
      exact ih h (nodup_add_edge hn)

/-- Invariant established by the build: every node either carries the
initial `level = 0` / `parent_id = None` attributes (declared nodes) or an
empty attribute dict (endpoints silently added by `add_edge`). -/
def NodesInit (G : DiGraph) : Prop :=
  ∀ p ∈ G.nodes,
    (dictGet p.2 "level" = some (.nat 0) ∧ dictGet p.2 "parent_id" = some .null)
      ∨ p.2 = []

theorem dictGet_initNodeAttrs (i l de : String) :
    dictGet (initNodeAttrs i l de) "level" = some (.nat 0) ∧
      dictGet (initNodeAttrs i l de) "parent_id" = some .null := by
  constructor <;> simp [initNodeAttrs, dictGet]

theorem dictGet_dictUpdate_initNodeAttrs (d : AttrDict) (i l de : String) :
    dictGet (dictUpdate d (initNodeAttrs i l de)) "level" = some (.nat 0) ∧
      dictGet (dictUpdate d (initNodeAttrs i l de)) "parent_id" = some .null := by
  show dictGet (dictSet (dictSet (dictSet (dictSet (dictSet d "id" (.str i))
      "label" (.str l)) "description" (.str de)) "level" (.nat 0))
      "parent_id" .null) "level" = some (.nat 0) ∧
    dictGet (dictSet (dictSet (dictSet (dictSet (dictSet d "id" (.str i))
      "label" (.str l)) "description" (.str de)) "level" (.nat 0))
      "parent_id" .null) "parent_id" = some .null
  constructor
  · rw [dictGet_dictSet_ne _ _ _ _ (by decide), dictGet_dictSet_self]
  · rw [dictGet_dictSet_self]

theorem nodesInit_add_node {G : DiGraph} {i l de : String}
    (h : NodesInit G) : NodesInit (G.add_node i (initNodeAttrs i l de)) := by
  intro p hp
  rcases nodes_add_node_mem hp with hold | ⟨q, _, rfl⟩ | rfl
  · exact h p hold
  · exact Or.inl (dictGet_dictUpdate_initNodeAttrs q.2 i l de)
  · exact Or.inl (dictGet_initNodeAttrs i l de)

theorem nodesInit_add_edge {G : DiGraph} {u v : String} {a : AttrDict}
    (h : NodesInit G) : NodesInit (G.add_edge u v a) := by
  intro p hp
  rcases nodes_add_edge_mem hp with hold | hemp
  · exact h p hold
  · exact Or.inr hemp

theorem addNodes_nodesInit {nds : List NodeDesc} {G G' : DiGraph}
    (h : addNodes G nds = .ok G') (hi : NodesInit G) : NodesInit G' := by
  induction nds generalizing G with
  | nil =>
      simp only [addNodes] at h
      cases h
      exact hi
  | cons nd rest ih =>
      rcases hid : nd.id with _ | i
      · rw [addNodes, hid] at h; cases h
      rcases hlb : nd.label with _ | l
      · rw [addNodes, hid, hlb] at h; cases h
      rcases hde : nd.description with _ | de
      · rw [addNodes, hid, hlb, hde] at h; cases h
      rw [addNodes, hid, hlb, hde] at h
      exact ih h (nodesInit_add_node hi)

theorem addEdges_nodesInit {eds : List EdgeDesc} {G G' : DiGraph}
    (h : addEdges G eds = .ok G') (hi : NodesInit G) : NodesInit G' := by
  induction eds generalizing G with
  | nil =>
      simp only [addEdges] at h
      cases h
      exact hi
  | cons ed rest ih =>
      rcases hs : ed.source with _ | s
      · rw [addEdges, hs] at h; cases h
      rcases ht : ed.target with _ | t
      · rw [addEdges, hs, ht] at h; cases h
      rw [addEdges, hs, ht] at h
      exact ih h (nodesInit_add_edge hi)

theorem buildGraph_nodesInit {nds : List NodeDesc} {eds : List EdgeDesc}
    {G : DiGraph} (h : buildGraph nds eds = .ok G) : NodesInit G := by
  unfold buildGraph at h
  rcases hn : addNodes emptyGraph nds with e | G0
  · rw [hn] at h; cases h
  · rw [hn] at h
    exact addEdges_nodesInit h
      (addNodes_nodesInit hn (fun p hp => by cases hp))

/-! ## Lemmas about the BFS hierarchy pass -/

theorem find_map_update (l : List (String × AttrDict)) {i n : String}
    (hne : i ≠ n) (g : AttrDict → AttrDict) :
    ((l.map fun p => if p.1 = i then (p.1, g p.2) else p).find?
        (fun p => p.1 = n))
      = l.find? (fun p => p.1 = n) := by
  induction l with
  | nil => rfl
  | cons p rest ih =>
      by_cases hpi : p.1 = i
      · have hpn : ¬ p.1 = n := fun e => hne (hpi ▸ e)
        simp only [List.map_cons, if_pos hpi]
        rw [List.find?_cons_of_neg _ (by simp [hpn]),
          List.find?_cons_of_neg _ (by simp [hpn]), ih]
      · by_cases hpn : p.1 = n
        · simp only [List.map_cons, if_neg hpi]
          rw [List.find?_cons_of_pos _ (by simp [hpn]),
            List.find?_cons_of_pos _ (by simp [hpn])]
        · simp only [List.map_cons, if_neg hpi]
          rw [List.find?_cons_of_neg _ (by simp [hpn]),
            List.find?_cons_of_neg _ (by simp [hpn]), ih]

theorem getNodeAttr_setNodeAttr_ne {G : DiGraph} {i n : String} (hne : i ≠ n)
    (k k' : String) (v : AttrVal) :
    getNodeAttr (setNodeAttr G i k v) n k' = getNodeAttr G n k' := by
  unfold getNodeAttr setNodeAttr
  rw [find_map_update G.nodes hne (fun d => dictSet d k v)]

theorem discoverChildren_frozen {n : String} (G : DiGraph)
    (visited : List String) (parent : String) (level : Nat)
    (queue : List (String × Nat)) (cs : List String) (hn : n ∈ visited)
    (k : String) :
    getNodeAttr (discoverChildren G visited parent level queue cs).1 n k
      = getNodeAttr G n k := by
  induction cs generalizing G queue with
  | nil => rfl
  | cons c rest ih =>
      by_cases hc : c ∈ visited
      · rw [discoverChildren, if_pos hc]
        exact ih G queue
      · rw [discoverChildren, if_neg hc]
        rw [ih _ _]
        exact getNodeAttr_setNodeAttr_ne
          (fun e => hc (by rw [e]; exact hn)) _ k _

theorem bfsStep_frozen {s s' : BfsState} {n : String} (hn : n ∈ s.visited)
    (h : bfsStep s = some s') (k : String) :
    n ∈ s'.visited ∧ getNodeAttr s'.G n k = getNodeAttr s.G n k := by
  rcases hq : s.queue with _ | ⟨⟨nodeId, level⟩, rest⟩
  · simp [bfsStep, hq] at h
  · simp only [bfsStep, hq] at h
    by_cases hv : nodeId ∈ s.visited
    · rw [if_pos hv] at h
      cases h
      exact ⟨hn, rfl⟩
    · rw [if_neg hv] at h
      cases h
      refine ⟨List.mem_append_left _ hn, ?_⟩
      rw [discoverChildren_frozen _ _ _ _ _ _ (List.mem_append_left _ hn) k]
      exact getNodeAttr_setNodeAttr_ne
        (fun e => hv (by rw [e]; exact hn)) _ k _

theorem bfsRun_frozen (fuel : Nat) (s : BfsState) {n : String}
    (hn : n ∈ s.visited) (k : String) :
    getNodeAttr (bfsRun fuel s).G n k = getNodeAttr s.G n k := by
  induction fuel generalizing s with
  | zero => rfl
  | succ f ih =>
      rcases hstep : bfsStep s with _ | s1
      · simp only [bfsRun, hstep]
      · simp only [bfsRun, hstep]
        obtain ⟨hn1, heq⟩ := bfsStep_frozen hn hstep k
        rw [ih s1 hn1, heq]

theorem rootNodes_eq_nil {G : DiGraph}
    (h : ∀ n ∈ G.nodeIds, 0 < G.in_degree n) : rootNodes G = [] := by
  rw [rootNodes, List.filter_eq_nil_iff]
  intro n hn
  simp only [decide_eq_true_eq]
  have := h n hn
  omega

theorem computeHierarchy_of_no_roots {G : DiGraph}
    (h : ∀ n ∈ G.nodeIds, 0 < G.in_degree n) : computeHierarchy G = G := by
  rw [computeHierarchy, if_pos (rootNodes_eq_nil h)]

/-! ## Idempotency guard (lines 37-55, 516-518) -/

/-- A queued mindmap message, as assembled by `handle_api_event`
(lines 577-581): `jobId`, `subject` and a `timestamp`. -/
structure SqsMessage where
  jobId : String
  subject : String
  timestamp : String
  deriving DecidableEq, Repr

/-- The serialized message body sent on the queue (lines 577-581); it
contains the timestamp, so two submissions of the same job at different
times have different bodies. -/
def SqsMessage.body (m : SqsMessage) : String :=
  "jobId=" ++ m.jobId ++ ";subject=" ++ m.subject ++ ";timestamp=" ++ m.timestamp

/-- The config sets the event key path to `Records[0].body` (line 48): the idempotency key is
derived from the FIRST record's whole body, never from the `jobId` field;
with `raise_on_no_idempotency_key=False` (line 50) a missing key means the
call runs unguarded. -/
def idempotencyKey (recordBodies : List String) : Option String :=
  recordBodies.head?

/-- `expires_after_seconds=3600` (line 51). -/
def idempotencyTTL : Nat := 3600

/-- A persisted idempotency record: still running, or completed with a
cached result.  `expiry` is an absolute epoch second. -/
inductive IdemRecord where
  | running (expiry : Nat)
  | done (result : String) (expiry : Nat)
  deriving DecidableEq, Repr

abbrev IdemStore := List (String × IdemRecord)

def storePut (store : IdemStore) (k : String) (r : IdemRecord) : IdemStore :=
  match store with
  | [] => [(k, r)]
  | (k0, r0) :: rest =>
      if k0 = k then (k, r) :: rest else (k0, r0) :: storePut rest k r

def storeGet (store : IdemStore) (k : String) : Option IdemRecord :=
  match store with
  | [] => none
  | (k0, r0) :: rest => if k0 = k then some r0 else storeGet rest k

def IdemRecord.expiry : IdemRecord → Nat
  | .running e => e
  | .done _ e => e

/-- Expired records are treated as absent. -/
def storeLookupValid (store : IdemStore) (k : String) (now : Nat) :
    Option IdemRecord :=
  match storeGet store k with
  | none => none
  | some r => if r.expiry ≤ now then none else some r

/-- Outcome of one guarded invocation. -/
inductive SubmitResponse where
  | fresh (result : String)
  | cached (result : String)
  | alreadyInProgress
  | unguarded (result : String)
  deriving DecidableEq, Repr

/-- Modelled from the spec: the behavior of the external
`aws_lambda_powertools` `@idempotent` decorator wrapping `handler`
(lines 516-518) is not part of this repository — only its configuration
(lines 37-55) is.  Following the spec's idempotency-guard contract: derive
the dedup key from the event; no key ⇒ run unguarded; a valid `completed`
record ⇒ return the cached result without running; a valid in-progress
record ⇒ signal already-in-progress without running; otherwise run the
pipeline and persist the result with a 1-hour expiry.  The returned `Bool`
is `true` exactly when the pipeline executed. -/
def submit (store : IdemStore) (now : Nat) (recordBodies : List String)
    (pipelineResult : String) : IdemStore × Bool × SubmitResponse :=
  match idempotencyKey recordBodies with
  | none => (store, true, .unguarded pipelineResult)
  | some k =>
      match storeLookupValid store k now with
      | some (.done r _) => (store, false, .cached r)
      | some (.running _) => (store, false, .alreadyInProgress)
      | none =>
          (storePut store k (.done pipelineResult (now + idempotencyTTL)),
           true, .fresh pipelineResult)

/-! ## Status recording and the SQS batch loop (lines 194-244, 635-732) -/

/-- Whether the external status/result store write (the Supabase insert on
line 222) succeeds or raises. -/
inductive StoreWrite where
  | ok
  | failed (msg : String)
  deriving DecidableEq, Repr

/-- `update_job_status` (lines 194-244): the ENTIRE body sits inside
`try: ... except Exception: logger.exception(...)`, so the function returns
normally — a log line — for every store outcome; a store failure is caught
and logged, never re-raised. -/
def update_job_status (storeWrite : StoreWrite) (jobId status : String)
    (hasResult : Bool) : List String :=
  if status = "completed" ∧ hasResult then
    match storeWrite with
    | .ok => ["stored completed mindmap job " ++ jobId]
    | .failed m => ["exception: failed to update job status for " ++ jobId ++ ": " ++ m]
  else
    ["job " ++ jobId ++ " status: " ++ status]

/-- A parsed SQS message body (`json.loads(record['body'])`, line 648):
either field may be absent. -/
structure SqsMsg where
  jobId : Option String
  subject : Option String
  deriving DecidableEq, Repr

/-- Python truthiness of `message_body.get(...)` as used by
`if not job_id or not subject` (line 652): absent or empty is falsy. -/
def truthy : Option String → Bool
  | none => false
  | some s => !s.isEmpty

/-- An entry of the per-message `results` list (lines 675-679, 689 etc.). -/
structure RecordOutcome where
  job_id : String
  status : String
  deriving DecidableEq, Repr

/-- A call made to `update_job_status`, with the status it recorded. -/
structure StatusCall where
  jobId : String
  status : String
  deriving DecidableEq, Repr

/-- Processing of one SQS record (lines 645-718), with the pipeline and the
status store as parameters: a record missing `jobId` or `subject` is skipped
by `continue` (line 658) — no status update, no results entry; otherwise
`processing` is recorded, the pipeline runs, and the outcome (`completed` or
`failed`) is recorded and appended.  Returns the optional results entry, the
status-update calls made, and the log lines of those calls. -/
def processRecord (runPipeline : String → String → Except String FinalData)
    (storeWrite : StoreWrite) (msg : SqsMsg) :
    Option RecordOutcome × List StatusCall × List String :=
  if ¬ (truthy msg.jobId = true) ∨ ¬ (truthy msg.subject = true) then
    (none, [], ["missing required fields in message"])
  else
    let j := msg.jobId.getD ""
    let s := msg.subject.getD ""
    let log1 := update_job_status storeWrite j "processing" false
    match runPipeline j s with
    | .ok _ =>
        let log2 := update_job_status storeWrite j "completed" true
        (some ⟨j, "completed"⟩,
         [⟨j, "processing"⟩, ⟨j, "completed"⟩], log1 ++ log2)
    | .error e =>
        let log2 := update_job_status storeWrite j "failed" false
        (some ⟨j, "failed"⟩,
         [⟨j, "processing"⟩, ⟨j, "failed"⟩],
         log1 ++ log2 ++ ["unexpected error: " ++ e])

/-- The loop over `event['Records']` (lines 644-718), accumulating the
results list, the status calls and the logs in record order. -/
def processAll (runPipeline : String → String → Except String FinalData)
    (storeWrite : StoreWrite) :
    List SqsMsg → List RecordOutcome × List StatusCall × List String
  | [] => ([], [], [])
  | m :: rest =>
      let r := processRecord runPipeline storeWrite m
      let rs := processAll runPipeline storeWrite rest
      (r.1.toList ++ rs.1, r.2.1 ++ rs.2.1, r.2.2 ++ rs.2.2)

/-- The response body of lines 720-732: per-message outcome list plus
aggregate counts. -/
structure BatchResponse where
  processed_jobs : Nat
  completed_jobs : Nat
  failed_jobs : Nat
  results : List RecordOutcome
  deriving DecidableEq, Repr

/-- `handle_sqs_event` (lines 635-732): process every record, then return
the aggregate response.  The status calls and logs are returned alongside to
state what was (and was not) recorded. -/
def handle_sqs_event (runPipeline : String → String → Except String FinalData)
    (storeWrite : StoreWrite) (msgs : List SqsMsg) :
    BatchResponse × List StatusCall × List String :=
  let r := processAll runPipeline storeWrite msgs
  ({ processed_jobs := r.1.length
     completed_jobs := (r.1.filter fun o => o.status = "completed").length
     failed_jobs := (r.1.filter fun o => o.status = "failed").length
     results := r.1 },
   r.2.1, r.2.2)

/-! ## Claim C1: edges with undeclared endpoints -/

/-- C1, counterexample: with declared nodes `[a]` and the edge `a → b`,
`b` undeclared, the build KEEPS the edge and silently adds `b` as a node
with an empty attribute dict — the node set `[a, b]` is not the declared
`[a]`, and no edge is dropped, contrary to the claim. -/
theorem c1_counterexample :
    buildGraph [⟨some "a", some "A", some "da"⟩] [⟨some "a", some "b", none⟩]
      = .ok { nodes := [("a", initNodeAttrs "a" "A" "da"), ("b", [])],
              edges := [("a", "b", initEdgeAttrs "a" "b" none)] }
    ∧ (DiGraph.mk [("a", initNodeAttrs "a" "A" "da"), ("b", [])]
        [("a", "b", initEdgeAttrs "a" "b" none)]).nodeIds = ["a", "b"]
    ∧ ("a", "b") ∈ (DiGraph.mk [("a", initNodeAttrs "a" "A" "da"), ("b", [])]
        [("a", "b", initEdgeAttrs "a" "b" none)]).edgePairs
    ∧ ["a", "b"] ≠ ["a"] := by
  refine ⟨rfl, rfl, ?_, by decide⟩
  decide

/-- C1 (amended): an edge whose endpoint is not a declared node id is NOT
dropped and no warning is recorded: `G.add_edge` keeps every well-formed
edge and implicitly adds its undeclared endpoints as nodes, so the resulting
node set is exactly the declared ids together with all edge endpoints. -/
theorem c1_edges_kept_node_set_augmented {nds : List NodeDesc}
    {eds : List EdgeDesc} {G : DiGraph} (h : buildGraph nds eds = .ok G) :
    (∀ ed ∈ eds, ∀ s t, ed.source = some s → ed.target = some t →
        (s, t) ∈ G.edgePairs) ∧
    (∀ j, j ∈ G.nodeIds ↔
        (∃ nd ∈ nds, nd.id = some j) ∨
          ∃ ed ∈ eds, ed.source = some j ∨ ed.target = some j) := by
  unfold buildGraph at h
  rcases hn : addNodes emptyGraph nds with e | G0
  · rw [hn] at h; cases h
  · rw [hn] at h
    constructor
    · intro ed hed s t hs ht
      rw [addEdges_ok_edgePairs h (s, t)]
      exact Or.inr ⟨ed, hed, hs, ht⟩
    · intro j
      rw [addEdges_ok_mem h j, addNodes_ok_mem hn j]
      simp only [emptyGraph, DiGraph.nodeIds, List.map_nil,
        List.not_mem_nil, false_or]

/-- C1, witness: the amended theorem applied at the concrete bad-edge input. -/
theorem c1_witness :
    ("a", "b") ∈ (DiGraph.mk [("a", initNodeAttrs "a" "A" "da"), ("b", [])]
        [("a", "b", initEdgeAttrs "a" "b" none)]).edgePairs :=
  (@c1_edges_kept_node_set_augmented
      [⟨some "a", some "A", some "da"⟩] [⟨some "a", some "b", none⟩]
      (DiGraph.mk [("a", initNodeAttrs "a" "A" "da"), ("b", [])]
        [("a", "b", initEdgeAttrs "a" "b" none)]) rfl).1
    ⟨some "a", some "b", none⟩ (by decide) "a" "b" rfl rfl

/-! ## Claim C2: duplicate node ids -/

/-- C2, counterexample: two node descriptors with the same id `a` do NOT
fail the build — there is no `SchemaError` anywhere; the build succeeds and
the later occurrence's attributes silently overwrite the earlier one's,
leaving a single merged node labelled `A2`. -/
theorem c2_counterexample :
    buildGraph [⟨some "a", some "A1", some "d1"⟩,
        ⟨some "a", some "A2", some "d2"⟩] []
      = .ok { nodes := [("a", initNodeAttrs "a" "A2" "d2")], edges := [] }
    ∧ (DiGraph.mk [("a", initNodeAttrs "a" "A2" "d2")] []).nodes.length = 1
    ∧ dictGet (initNodeAttrs "a" "A2" "d2") "label" = some (.str "A2") := by
  refine ⟨rfl, rfl, ?_⟩
  decide

/-- C2 (amended): duplicate node ids never fail the build; they are
silently merged — `add_node` updates the existing node in place, so the
built graph's node-id list has no duplicates. -/
theorem c2_duplicate_ids_merged {nds : List NodeDesc} {eds : List EdgeDesc}
    (h1 : ∀ nd ∈ nds, nd.id ≠ none ∧ nd.label ≠ none ∧ nd.description ≠ none)
    (h2 : ∀ ed ∈ eds, ed.source ≠ none ∧ ed.target ≠ none) :
    ∃ G, buildGraph nds eds = .ok G ∧ G.nodeIds.Nodup := by
  obtain ⟨G0, hG0⟩ := addNodes_total emptyGraph h1
  obtain ⟨G, hG⟩ := addEdges_total G0 h2
  refine ⟨G, ?_, ?_⟩
  · unfold buildGraph
    rw [hG0]
    exact hG
  · exact addEdges_nodup hG
      (addNodes_nodup hG0 (by simp [emptyGraph, DiGraph.nodeIds]))

/-- C2, witness: the amended theorem applied at the duplicate-id input. -/
theorem c2_witness :
    ∃ G, buildGraph [⟨some "a", some "A1", some "d1"⟩,
        ⟨some "a", some "A2", some "d2"⟩] [] = .ok G ∧ G.nodeIds.Nodup :=
  c2_duplicate_ids_merged (by decide) (by decide)

/-! ## Claim C3: layout-engine metadata -/

/-- C3, counterexample: a run in which pygraphviz is unavailable, so the
spring-layout fallback produces the coordinates, still reports
`layout_engine = 'dot'` in the metadata — not the claimed force-directed
value (nor the hierarchical value on the primary path: `'dot'` is a
hard-coded literal). -/
theorem c3_counterexample :
    (processMindmap ⟨false, fun _ => none, fun _ => some (1, 1)⟩ "s" "t0"
        [⟨some "a", some "A", some "da"⟩] []).map
      (fun fd => fd.metadata.layout_engine) = .ok "dot"
    ∧ "dot" ≠ "force-directed" ∧ "dot" ≠ "hierarchical" := by
  refine ⟨rfl, by decide, by decide⟩

/-- C3 (amended): whatever layout strategy actually produced the
coordinates, every successful pipeline result carries the constant
`layout_engine = 'dot'` in its metadata (line 503 is shared by both
branches). -/
theorem c3_layout_engine_always_dot (env : LayoutEnv)
    (subject generatedAt : String) (nds : List NodeDesc)
    (eds : List EdgeDesc) (fd : FinalData)
    (h : processMindmap env subject generatedAt nds eds = .ok fd) :
    fd.metadata.layout_engine = "dot" := by
  unfold processMindmap at h
  rcases hb : buildGraph nds eds with e | G
  · rw [hb] at h; cases h
  · rw [hb] at h
    cases h
    rfl

/-- C3, witness: the amended theorem applied on the fallback path with an
empty generated graph. -/
theorem c3_witness :
    (FinalData.mk "s" [] [] (Metadata.mk "s" "t0" 0 0 "dot")).metadata.layout_engine
      = "dot" :=
  c3_layout_engine_always_dot ⟨false, fun _ => none, fun _ => none⟩ "s" "t0"
    [] [] (FinalData.mk "s" [] [] (Metadata.mk "s" "t0" 0 0 "dot")) rfl

/-! ## Claim C6: node missing a required field -/

/-- C6, counterexample: a node descriptor missing `description` fails the
build with `KeyError('description')` — there is no `SchemaError` type in
the repository and the error does not carry the node index. -/
theorem c6_counterexample :
    buildGraph [⟨some "a", some "A", none⟩] []
      = .error (.keyError "description") := by
  rfl

/-- C6 (amended): a node list containing a descriptor missing `id`, `label`
or `description` fails the WHOLE build with a `KeyError` naming the missing
dict key (a plain `KeyError`, not a `SchemaError`, and without the node
index); no partial graph is ever returned — the build's only success value
is a complete graph. -/
theorem c6_missing_field_fails_with_keyError {nds : List NodeDesc}
    {eds : List EdgeDesc}
    (h : ∃ nd ∈ nds, nd.id = none ∨ nd.label = none ∨ nd.description = none) :
    ∃ k ∈ (["id", "label", "description"] : List String),
      buildGraph nds eds = .error (.keyError k) := by
  obtain ⟨k, hk, hrun⟩ := addNodes_missing_field emptyGraph h
  exact ⟨k, hk, by unfold buildGraph; rw [hrun]⟩

/-- C6, witness: the amended theorem applied at the missing-description
input. -/
theorem c6_witness :
    ∃ k ∈ (["id", "label", "description"] : List String),
      buildGraph [⟨some "a", some "A", none⟩] [] = .error (.keyError k) :=
  c6_missing_field_fails_with_keyError
    ⟨⟨some "a", some "A", none⟩, by decide, Or.inr (Or.inr rfl)⟩

/-! ## Claim C4: first-visit fixing of level and parent -/

/-- C4, counterexample: roots `A`, `B` (in that traversal order) both point
at `C`.  `A` is dequeued first and reaches `C` first, assigning
`parent_id = A`; but before `C` itself is dequeued, `B`'s expansion
OVERWRITES it to `B`.  The final parent is the later-discovered `B`, not
the first — the level, by contrast, is fixed at `C`'s first dequeue. -/
theorem c4_counterexample :
    (buildGraph
        [⟨some "A", some "la", some "da"⟩, ⟨some "B", some "lb", some "db"⟩,
         ⟨some "C", some "lc", some "dc"⟩]
        [⟨some "A", some "C", none⟩, ⟨some "B", some "C", none⟩]).map
      (fun g => (rootNodes g,
        getNodeAttr (computeHierarchy g) "C" "parent_id",
        getNodeAttr (computeHierarchy g) "C" "level"))
      = .ok (["A", "B"], some (.str "B"), some (.nat 1))
    ∧ AttrVal.str "B" ≠ AttrVal.str "A" := by
  refine ⟨rfl, by decide⟩

/-- C4 (amended): a node's `level` and `parent_id` become immutable only
once the node itself is dequeued and added to `visited`: from any BFS state
in which `n` is already visited, no number of further loop iterations
changes `n`'s `level` or `parent_id` attribute.  (Before that point the
`parent_id` may be rewritten by each later-dequeued predecessor, as the
counterexample shows, so a node reachable from multiple parents keeps the
LAST parent assigned before its dequeue, not the first.) -/
theorem c4_level_parent_frozen_after_visit (fuel : Nat) (s : BfsState)
    (n : String) (hn : n ∈ s.visited) :
    getNodeAttr (bfsRun fuel s).G n "level" = getNodeAttr s.G n "level" ∧
    getNodeAttr (bfsRun fuel s).G n "parent_id"
      = getNodeAttr s.G n "parent_id" :=
  ⟨bfsRun_frozen fuel s hn "level", bfsRun_frozen fuel s hn "parent_id"⟩

/-- C4, witness: the amended theorem applied to a concrete mid-BFS state in
which `X` is already visited. -/
theorem c4_witness :
    "X" ∈ (BfsState.mk (DiGraph.mk [("X", [("level", AttrVal.nat 7)])] [])
        [("Y", 0)] ["X"]).visited
    ∧ getNodeAttr (bfsRun 3 (BfsState.mk
        (DiGraph.mk [("X", [("level", AttrVal.nat 7)])] []) [("Y", 0)] ["X"])).G
        "X" "level"
      = getNodeAttr (DiGraph.mk [("X", [("level", AttrVal.nat 7)])] [])
        "X" "level" :=
  ⟨by decide,
   (c4_level_parent_frozen_after_visit 3
     (BfsState.mk (DiGraph.mk [("X", [("level", AttrVal.nat 7)])] [])
       [("Y", 0)] ["X"]) "X" (by decide)).1⟩

/-! ## Claim C5: idempotent execution per job id -/

/-- C5, counterexample: two submissions carrying the SAME job id but
different timestamps (as `handle_api_event` stamps each queued message)
have different record bodies, hence different idempotency keys
(`Records[0].body`), so the pipeline executes BOTH times, within the
1-hour TTL window — the claim's "same job id ⇒ exactly once" fails. -/
theorem c5_counterexample :
    (SqsMessage.mk "job-1" "math" "t00:00").jobId
      = (SqsMessage.mk "job-1" "math" "t00:05").jobId
    ∧ (SqsMessage.mk "job-1" "math" "t00:00").body
      ≠ (SqsMessage.mk "job-1" "math" "t00:05").body
    ∧ (submit [] 0 [(SqsMessage.mk "job-1" "math" "t00:00").body] "r1").2.1
      = true
    ∧ (submit (submit [] 0 [(SqsMessage.mk "job-1" "math" "t00:00").body] "r1").1
        300 [(SqsMessage.mk "job-1" "math" "t00:05").body] "r2").2.1 = true
    ∧ 300 < idempotencyTTL := by
  refine ⟨rfl, by decide, rfl, by decide, by decide⟩

/-- C5 (amended): deduplication is keyed on the whole first record body,
not the job id: two submissions with byte-identical bodies within the TTL
window execute the pipeline exactly once — the second returns the first's
cached result — and a submission whose key holds an unexpired in-progress
record returns the in-progress signal without executing. -/
theorem c5_same_body_executes_once (body r1 r2 : String) (now1 now2 : Nat)
    (httl : now2 < now1 + idempotencyTTL) (store : IdemStore) (e : Nat)
    (hrun : storeGet store body = some (.running e)) (he : now2 < e) :
    (submit [] now1 [body] r1).2.1 = true
    ∧ (submit (submit [] now1 [body] r1).1 now2 [body] r2).2.1 = false
    ∧ (submit (submit [] now1 [body] r1).1 now2 [body] r2).2.2 = .cached r1
    ∧ (submit store now2 [body] r2).2.1 = false
    ∧ (submit store now2 [body] r2).2.2 = .alreadyInProgress := by
  have h1 : submit [] now1 [body] r1
      = ([(body, .done r1 (now1 + idempotencyTTL))], true, .fresh r1) := by
    simp [submit, idempotencyKey, storeLookupValid, storeGet, storePut]
  have hexp : ¬ (now1 + idempotencyTTL ≤ now2) := by omega
  have h2 : submit [(body, .done r1 (now1 + idempotencyTTL))] now2 [body] r2
      = ([(body, .done r1 (now1 + idempotencyTTL))], false, .cached r1) := by
    simp [submit, idempotencyKey, storeLookupValid, storeGet,
      IdemRecord.expiry, hexp]
  have hexp2 : ¬ (e ≤ now2) := by omega
  have h3 : submit store now2 [body] r2 = (store, false, .alreadyInProgress) := by
    simp [submit, idempotencyKey, storeLookupValid, hrun,
      IdemRecord.expiry, hexp2]
  rw [h1]
  rw [h2, h3]
  exact ⟨rfl, rfl, rfl, rfl, rfl⟩

/-- C5, witness: the amended theorem at a concrete body, times 0 and 300,
and a store holding an unexpired in-progress record for that body. -/
theorem c5_witness :
    (submit [] 0 ["jobId=j1;subject=math;timestamp=t0"] "r1").2.1 = true
    ∧ (submit (submit [] 0 ["jobId=j1;subject=math;timestamp=t0"] "r1").1 300
        ["jobId=j1;subject=math;timestamp=t0"] "r2").2.1 = false
    ∧ (submit (submit [] 0 ["jobId=j1;subject=math;timestamp=t0"] "r1").1 300
        ["jobId=j1;subject=math;timestamp=t0"] "r2").2.2 = .cached "r1"
    ∧ (submit [("jobId=j1;subject=math;timestamp=t0", IdemRecord.running 500)]
        300 ["jobId=j1;subject=math;timestamp=t0"] "r2").2.1 = false
    ∧ (submit [("jobId=j1;subject=math;timestamp=t0", IdemRecord.running 500)]
        300 ["jobId=j1;subject=math;timestamp=t0"] "r2").2.2
      = .alreadyInProgress :=
  c5_same_body_executes_once "jobId=j1;subject=math;timestamp=t0" "r1" "r2"
    0 300 (by decide)
    [("jobId=j1;subject=math;timestamp=t0", IdemRecord.running 500)] 500
    rfl (by decide)

/-! ## Claim C7: no root candidates -/

/-- C7: when every node of the built graph has at least one incoming edge,
there are no root candidates and the level/parent assignment is skipped
entirely: the graph is returned unchanged, every declared node keeps
`level = 0` and `parent_id = None` (nodes auto-added by a bad edge keep
their empty attribute dict), and the pipeline still completes successfully
with an assembled result, not an error. -/
theorem c7_no_roots_degraded_success {nds : List NodeDesc}
    {eds : List EdgeDesc} {G : DiGraph} (hb : buildGraph nds eds = .ok G)
    (hin : ∀ n ∈ G.nodeIds, 0 < G.in_degree n) :
    computeHierarchy G = G
    ∧ (∀ p ∈ G.nodes,
        (dictGet p.2 "level" = some (.nat 0)
          ∧ dictGet p.2 "parent_id" = some .null) ∨ p.2 = [])
    ∧ ∀ env subject generatedAt,
        processMindmap env subject generatedAt nds eds
          = .ok (layoutAndAssemble env subject generatedAt G eds) := by
  refine ⟨computeHierarchy_of_no_roots hin, buildGraph_nodesInit hb, ?_⟩
  intro env subject generatedAt
  unfold processMindmap
  rw [hb]
  show Except.ok (layoutAndAssemble env subject generatedAt
    (computeHierarchy G) eds) = _
  rw [computeHierarchy_of_no_roots hin]

/-- C7, witness: the theorem applied at the 3-cycle `A → B → C → A`. -/
theorem c7_witness :
    computeHierarchy (DiGraph.mk
      [("A", initNodeAttrs "A" "la" "da"), ("B", initNodeAttrs "B" "lb" "db"),
       ("C", initNodeAttrs "C" "lc" "dc")]
      [("A", "B", initEdgeAttrs "A" "B" none),
       ("B", "C", initEdgeAttrs "B" "C" none),
       ("C", "A", initEdgeAttrs "C" "A" none)])
      = DiGraph.mk
      [("A", initNodeAttrs "A" "la" "da"), ("B", initNodeAttrs "B" "lb" "db"),
       ("C", initNodeAttrs "C" "lc" "dc")]
      [("A", "B", initEdgeAttrs "A" "B" none),
       ("B", "C", initEdgeAttrs "B" "C" none),
       ("C", "A", initEdgeAttrs "C" "A" none)] :=
  (@c7_no_roots_degraded_success
    [⟨some "A", some "la", some "da"⟩, ⟨some "B", some "lb", some "db"⟩,
     ⟨some "C", some "lc", some "dc"⟩]
    [⟨some "A", some "B", none⟩, ⟨some "B", some "C", none⟩,
     ⟨some "C", some "A", none⟩]
    (DiGraph.mk
      [("A", initNodeAttrs "A" "la" "da"), ("B", initNodeAttrs "B" "lb" "db"),
       ("C", initNodeAttrs "C" "lc" "dc")]
      [("A", "B", initEdgeAttrs "A" "B" none),
       ("B", "C", initEdgeAttrs "B" "C" none),
       ("C", "A", initEdgeAttrs "C" "A" none)])
    rfl (by decide)).1

/-! ## Claim C9: persistence failure never flips a completed job -/

/-- C9: `update_job_status` catches every status-store failure inside its
`try/except` and merely logs it, so when the pipeline has computed a result
for a record, the record's outcome is `completed` for EVERY store-write
outcome — a persistence failure produces a log line, never flips the job to
failed, and the outcome equals the one with a healthy store. -/
theorem c9_persistence_failure_not_fatal
    (runPipeline : String → String → Except String FinalData)
    (storeWrite : StoreWrite) (m : SqsMsg) (j s : String) (d : FinalData)
    (hj : m.jobId = some j) (hs : m.subject = some s)
    (htj : truthy m.jobId = true) (hts : truthy m.subject = true)
    (hrun : runPipeline j s = .ok d) :
    (processRecord runPipeline storeWrite m).1 = some ⟨j, "completed"⟩
    ∧ (processRecord runPipeline storeWrite m).1
        = (processRecord runPipeline .ok m).1
    ∧ ∀ msg, update_job_status (.failed msg) j "completed" true ≠ [] := by
  have hcond : ¬ (¬ (truthy m.jobId = true) ∨ ¬ (truthy m.subject = true)) := by
    simp [htj, hts]
  have hval : ∀ sw : StoreWrite,
      (processRecord runPipeline sw m).1 = some ⟨j, "completed"⟩ := by
    intro sw
    unfold processRecord
    rw [if_neg hcond, hj, hs]
    simp only [Option.getD_some]
    rw [hrun]
  refine ⟨hval storeWrite, (hval storeWrite).trans (hval .ok).symm, ?_⟩
  intro msg
  simp [update_job_status]

/-- C9, witness: the theorem at a concrete record whose store write fails. -/
theorem c9_witness :
    (processRecord (fun _ _ => .ok (FinalData.mk "s" [] []
        (Metadata.mk "s" "t0" 0 0 "dot"))) (.failed "boom")
        (SqsMsg.mk (some "j1") (some "sub"))).1
      = some (RecordOutcome.mk "j1" "completed") :=
  (c9_persistence_failure_not_fatal
    (fun _ _ => .ok (FinalData.mk "s" [] [] (Metadata.mk "s" "t0" 0 0 "dot")))
    (.failed "boom") (SqsMsg.mk (some "j1") (some "sub")) "j1" "sub"
    (FinalData.mk "s" [] [] (Metadata.mk "s" "t0" 0 0 "dot"))
    rfl rfl (by decide) (by decide) rfl).1

/-! ## Claim C10: records missing jobId or subject are skipped -/

theorem processAll_append
    (runPipeline : String → String → Except String FinalData)
    (storeWrite : StoreWrite) (l1 l2 : List SqsMsg) :
    (processAll runPipeline storeWrite (l1 ++ l2)).1
        = (processAll runPipeline storeWrite l1).1
          ++ (processAll runPipeline storeWrite l2).1
    ∧ (processAll runPipeline storeWrite (l1 ++ l2)).2.1
        = (processAll runPipeline storeWrite l1).2.1
          ++ (processAll runPipeline storeWrite l2).2.1 := by
  induction l1 with
  | nil => simp [processAll]
  | cons m rest ih =>
      refine ⟨?_, ?_⟩
      · show (processRecord runPipeline storeWrite m).1.toList
            ++ (processAll runPipeline storeWrite (rest ++ l2)).1
          = ((processRecord runPipeline storeWrite m).1.toList
            ++ (processAll runPipeline storeWrite rest).1)
            ++ (processAll runPipeline storeWrite l2).1
        rw [ih.1, List.append_assoc]
      · show (processRecord runPipeline storeWrite m).2.1
            ++ (processAll runPipeline storeWrite (rest ++ l2)).2.1
          = ((processRecord runPipeline storeWrite m).2.1
            ++ (processAll runPipeline storeWrite rest).2.1)
            ++ (processAll runPipeline storeWrite l2).2.1
        rw [ih.2, List.append_assoc]

/-- C10: a batch record whose parsed body lacks a truthy `jobId` or
`subject` is skipped entirely by `continue`: removing it from the batch
changes neither the returned response (outcome list and aggregate counts)
nor the sequence of status updates recorded — the pipeline is never invoked
for it and no status (`processing`, `completed` or `failed`) is written. -/
theorem c10_missing_fields_skipped
    (runPipeline : String → String → Except String FinalData)
    (storeWrite : StoreWrite) (pre post : List SqsMsg) (m : SqsMsg)
    (hm : truthy m.jobId = false ∨ truthy m.subject = false) :
    (handle_sqs_event runPipeline storeWrite (pre ++ m :: post)).1
      = (handle_sqs_event runPipeline storeWrite (pre ++ post)).1
    ∧ (handle_sqs_event runPipeline storeWrite (pre ++ m :: post)).2.1
      = (handle_sqs_event runPipeline storeWrite (pre ++ post)).2.1 := by
  have hcond : ¬ (truthy m.jobId = true) ∨ ¬ (truthy m.subject = true) := by
    rcases hm with h | h
    · exact Or.inl (by simp [h])
    · exact Or.inr (by simp [h])
  have hskip1 : (processRecord runPipeline storeWrite m).1 = none := by
    unfold processRecord
    rw [if_pos hcond]
  have hskip2 : (processRecord runPipeline storeWrite m).2.1 = [] := by
    unfold processRecord
    rw [if_pos hcond]
  have hres : (processAll runPipeline storeWrite (pre ++ m :: post)).1
      = (processAll runPipeline storeWrite (pre ++ post)).1 := by
    rw [(processAll_append runPipeline storeWrite pre (m :: post)).1,
      (processAll_append runPipeline storeWrite pre post).1]
    simp only [processAll, hskip1, Option.toList_none, List.nil_append]
  have hcalls : (processAll runPipeline storeWrite (pre ++ m :: post)).2.1
      = (processAll runPipeline storeWrite (pre ++ post)).2.1 := by
    rw [(processAll_append runPipeline storeWrite pre (m :: post)).2,
      (processAll_append runPipeline storeWrite pre post).2]
    simp only [processAll, hskip2, List.nil_append]
  constructor
  · show BatchResponse.mk _ _ _ _ = BatchResponse.mk _ _ _ _
    rw [hres]
  · show (processAll runPipeline storeWrite (pre ++ m :: post)).2.1
        = (processAll runPipeline storeWrite (pre ++ post)).2.1
    exact hcalls

/-- C10, witness: the theorem at a single-record batch missing `jobId`. -/
theorem c10_witness :
    (handle_sqs_event (fun _ _ => .error "no pipeline") .ok
        ([] ++ SqsMsg.mk none (some "sub") :: [])).1
      = (handle_sqs_event (fun _ _ => .error "no pipeline") .ok ([] ++ [])).1 :=
  (c10_missing_fields_skipped (fun _ _ => .error "no pipeline") .ok [] []
    (SqsMsg.mk none (some "sub")) (Or.inl rfl)).1

end Sensa
